import Mathlib

/-!
Verification of the QuickScheduler scheduling core against its specification.

The repository ships its test suite (`tests/utils/test_triggers.py`,
`tests/backend/test_database.py`, `tests/backend/test_scheduler.py`,
`tests/utils/test_subprocess_runner.py`) and the entry point
`src/quickScheduler/main.py`, but the library modules they exercise
(`quickScheduler/utils/triggers.py`, `quickScheduler/backend/database.py`,
`quickScheduler/backend/scheduler.py`,
`quickScheduler/utils/subprocess_runner.py`) are not among the staged files.
The definitions below are therefore modelled from the specification's §3-§4.6
descriptions of those modules, kept consistent with the behaviour the shipped
tests pin down (each such definition carries a `Modelled from the spec:` note).

Time is embedded as follows: an instant is an `Int`, the number of seconds
since the epoch 2023-01-01T00:00:00 UTC (so calendar day 0 is 2023-01-01,
a Sunday, and ISO weekday numbers Mon=1..Sun=7 follow from the day number).
An IANA zone is embedded as its fixed UTC offset in seconds (the winter
offsets the tests use); DST transitions are outside the model.
-/

/-- The three trigger variants of §4.1 (`TriggerType` in
`quickScheduler/utils/triggers.py`). -/
inductive TriggerType where
  | IMMEDIATE
  | DAILY
  | INTERVAL
deriving DecidableEq, Repr

/-- Seconds in one calendar day. -/
def secondsPerDay : Int := 86400

/-- Calendar day (in the zone with UTC offset `off` seconds) containing the
UTC instant `t`. -/
def localDay (off t : Int) : Int := (t + off) / secondsPerDay

/-- Second-of-day (in the zone with UTC offset `off`) of the UTC instant `t`. -/
def localSec (off t : Int) : Int := (t + off) % secondsPerDay

/-- The UTC instant at second-of-day `s` of calendar day `d` in the zone with
UTC offset `off`. -/
def utcOf (off d s : Int) : Int := secondsPerDay * d + s - off

/-- ISO weekday (Mon = 1 .. Sun = 7) of calendar day `d`; day 0 =
2023-01-01 is a Sunday. -/
def isoWeekday (d : Int) : Int := (d + 6) % 7 + 1

/-- Modelled from the spec: the validated `TriggerConfig` of §4.1 (its
source, `quickScheduler/utils/triggers.py`, is not among the staged files).
`timezone` keeps the IANA name, `tzOffset` the zone's embedded fixed UTC
offset in seconds; times of day are seconds after local midnight, `interval`
is in seconds, `weekdays` uses ISO numbers 1..7 and `dates` lists calendar
day numbers in the configured zone. -/
structure TriggerConfig where
  timezone : String := "UTC"
  tzOffset : Int := 0
  run_time : Option Int := none
  start_time : Option Int := none
  end_time : Option Int := none
  interval : Option Int := none
  weekdays : Option (List Int) := none
  dates : Option (List Int) := none
deriving DecidableEq, Repr

/-- Whether calendar day `d` passes the optional `weekdays` and `dates`
filters of the configuration. -/
def dateAllowed (c : TriggerConfig) (d : Int) : Bool :=
  (match c.weekdays with
   | none => true
   | some ws => ws.contains (isoWeekday d)) &&
  (match c.dates with
   | none => true
   | some ds => ds.contains d)

/-- Largest element of a list of integers (0 for the empty list). -/
def listMaxI : List Int → Int
  | [] => 0
  | x :: xs => max x (listMaxI xs)

/-- How many consecutive days the day-search must examine starting at `d`:
when `dates` is set every allowed day lies in the list, so searching up to
its maximum suffices; otherwise seven consecutive days cover every weekday. -/
def dayFuel (c : TriggerConfig) (d : Int) : Nat :=
  match c.dates with
  | some ds => (listMaxI ds + 1 - d).toNat
  | none => 7

/-- First day `d' ≥ d` passing the filters, examining at most `fuel` days
(the "advance one day while not allowed" loop of §4.1). -/
def findAllowedDay (c : TriggerConfig) (d : Int) : Nat → Option Int
  | 0 => none
  | fuel + 1 => if dateAllowed c d then some d else findAllowedDay c (d + 1) fuel

/-- The UTC instant at second-of-day `slotSec` of the first allowed day
`≥ d`, or `none` when the schedule is exhausted. -/
def nextDayAt (c : TriggerConfig) (d slotSec : Int) : Option Int :=
  (findAllowedDay c d (dayFuel c d)).map (fun d' => utcOf c.tzOffset d' slotSec)

/-- Modelled from the spec: `DailyTrigger.get_next_run` of §4.1 (source file
absent). Candidate is today-in-zone at `run_time`; if that is ≤ `now`,
advance one calendar day; then advance while the day fails the
`weekdays`/`dates` filters; convert back to UTC. -/
def dailyGetNextRun (c : TriggerConfig) (now : Int) : Option Int :=
  let rt := c.run_time.getD 0
  let d0 := localDay c.tzOffset now
  let cand := utcOf c.tzOffset d0 rt
  let d1 := if cand ≤ now then d0 + 1 else d0
  nextDayAt c d1 rt

/-- Modelled from the spec: `IntervalTrigger.get_next_run` of §4.1 (source
file absent). Normalize `now` into the zone; before `start_time` the
candidate is that day's `start_time`; within `[start_time, end_time]` it is
the first grid point `start_time + k·interval` strictly after `now` (the
shipped test `test_get_next_run_after_start_before_end` fixes the strict
inequality: at 10:00 on an hourly 09:00-17:00 grid the result is 11:00)
provided it is still ≤ `end_time`; otherwise the next allowed day's
`start_time`, with the `weekdays`/`dates` filters applied as for DAILY. -/
def intervalGetNextRun (c : TriggerConfig) (now : Int) : Option Int :=
  let s := c.start_time.getD 0
  let e := c.end_time.getD 0
  let i := c.interval.getD 1
  let d0 := localDay c.tzOffset now
  let tod := localSec c.tzOffset now
  if tod < s then
    if dateAllowed c d0 then some (utcOf c.tzOffset d0 s)
    else nextDayAt c (d0 + 1) s
  else if e < tod then
    nextDayAt c (d0 + 1) s
  else if dateAllowed c d0 then
    let cand := s + ((tod - s) / i + 1) * i
    if cand ≤ e then some (utcOf c.tzOffset d0 cand)
    else nextDayAt c (d0 + 1) s
  else nextDayAt c (d0 + 1) s

/-- The valid fire instants of a DAILY trigger: `run_time` on an allowed
day, expressed in UTC. -/
def DailyValidInstant (c : TriggerConfig) (t : Int) : Prop :=
  ∃ d, dateAllowed c d = true ∧ t = utcOf c.tzOffset d (c.run_time.getD 0)

/-- The valid fire instants of an INTERVAL trigger: grid points
`start_time + k·interval ≤ end_time` on an allowed day, expressed in UTC. -/
def IntervalValidInstant (c : TriggerConfig) (t : Int) : Prop :=
  ∃ d k, dateAllowed c d = true ∧ 0 ≤ k ∧
    c.start_time.getD 0 + k * c.interval.getD 1 ≤ c.end_time.getD 0 ∧
    t = utcOf c.tzOffset d (c.start_time.getD 0 + k * c.interval.getD 1)

/-- Well-formedness of a DAILY configuration: `run_time` is a second of the
day. (The Python `datetime.time` type guarantees the bounds.) -/
def DailyOK (c : TriggerConfig) (rt : Int) : Prop :=
  c.run_time = some rt ∧ 0 ≤ rt ∧ rt < secondsPerDay

/-- Well-formedness of an INTERVAL configuration: the times are seconds of
the day with `start_time < end_time` (enforced by `TriggerConfig`
validation) and the interval is positive. -/
def IntervalOK (c : TriggerConfig) (s e i : Int) : Prop :=
  c.start_time = some s ∧ c.end_time = some e ∧ c.interval = some i ∧
    0 ≤ s ∧ s < e ∧ e < secondsPerDay ∧ 0 < i

/-- Modelled from the spec: `DailyTrigger.should_run` of §4.1 (source file
absent): true iff the candidate is a valid fire instant and `now` lies in
the grace window reaching one day back from the candidate. -/
def dailyIsCandidate (c : TriggerConfig) (t : Int) : Bool :=
  (localSec c.tzOffset t == c.run_time.getD 0) &&
    dateAllowed c (localDay c.tzOffset t)

/-- DAILY grace-window test (see `dailyIsCandidate`). -/
def dailyShouldRun (c : TriggerConfig) (t now : Int) : Bool :=
  dailyIsCandidate c t && decide (t - secondsPerDay ≤ now) && decide (now ≤ t)

/-- Modelled from the spec: `IntervalTrigger.should_run` of §4.1 (source
file absent): the candidate must sit on the interval grid inside
`[start_time, end_time]` of an allowed day. -/
def intervalIsCandidate (c : TriggerConfig) (t : Int) : Bool :=
  let s := c.start_time.getD 0
  let tod := localSec c.tzOffset t
  decide (s ≤ tod) && decide (tod ≤ c.end_time.getD 0) &&
    ((tod - s) % (c.interval.getD 1) == 0) &&
    dateAllowed c (localDay c.tzOffset t)

/-- INTERVAL grace-window test: one interval back from the candidate. -/
def intervalShouldRun (c : TriggerConfig) (t now : Int) : Bool :=
  intervalIsCandidate c t && decide (t - c.interval.getD 1 ≤ now) &&
    decide (now ≤ t)

/-- Modelled from the spec: the one-shot cursor state of an IMMEDIATE
trigger (§3 "Trigger state", §4.1). -/
structure ImmediateTrigger where
  triggered : Bool
deriving DecidableEq, Repr

/-- Modelled from the spec: `ImmediateTrigger.get_next_run` returns `now` on
the first call and `none` thereafter; the state change is explicit. -/
def immGetNextRun (tr : ImmediateTrigger) (now : Int) :
    Option Int × ImmediateTrigger :=
  if tr.triggered then (none, tr) else (some now, ⟨true⟩)

/-- Modelled from the spec: `ImmediateTrigger.should_run` is true exactly
once ("first call only"). -/
def immShouldRun (tr : ImmediateTrigger) : Bool × ImmediateTrigger :=
  if tr.triggered then (false, tr) else (true, ⟨true⟩)

/-- The results of a sequence of `get_next_run` calls on an IMMEDIATE
trigger, threading the cursor. -/
def immRunSeq (tr : ImmediateTrigger) : List Int → List (Option Int)
  | [] => []
  | n :: ns => (immGetNextRun tr n).1 :: immRunSeq (immGetNextRun tr n).2 ns

/-- The results of `k` successive `should_run` calls on an IMMEDIATE
trigger, threading the cursor. -/
def immShouldSeq (tr : ImmediateTrigger) : Nat → List Bool
  | 0 => []
  | k + 1 => (immShouldRun tr).1 :: immShouldSeq (immShouldRun tr).2 k

/-- The typed construction errors of §7 (**ValidationError**) raised by
`TriggerConfig` validation and the trigger constructors; each constructor
corresponds to one error message of the shipped tests. -/
inductive TriggerError where
  | invalidTimezone
  | invalidWeekdays
  | endTimeMissing
  | intervalMissing
  | endNotAfterStart
  | runTimeMissing
  | startTimeMissing
  | wrongTriggerType (expected : TriggerType)
deriving DecidableEq, Repr

/-- A `TriggerConfig` as handed to the constructor, before validation. -/
structure RawTriggerConfig where
  timezone : String := "UTC"
  run_time : Option Int := none
  start_time : Option Int := none
  end_time : Option Int := none
  interval : Option Int := none
  weekdays : Option (List Int) := none
  dates : Option (List Int) := none
deriving DecidableEq, Repr

/-- Modelled from the spec: the IANA zone database consulted for timezone
validation (§4.1 "timezone (IANA name)"), embedded as a finite table of
zone names with their fixed winter UTC offsets in seconds. -/
def tzTable : List (String × Int) :=
  [("UTC", 0), ("America/New_York", -18000), ("Asia/Tokyo", 32400),
   ("Europe/London", 0), ("America/Los_Angeles", -28800)]

/-- Offset lookup for a zone name; `none` marks an invalid timezone. -/
def lookupTz (name : String) : Option Int :=
  (tzTable.find? (fun p => p.1 == name)).map Prod.snd

/-- Every configured weekday lies in the ISO range 1..7. -/
def weekdaysValid : Option (List Int) → Bool
  | none => true
  | some ws => ws.all (fun w => decide (1 ≤ w) && decide (w ≤ 7))

/-- Modelled from the spec: `TriggerConfig` construction-time validation
(§3, §7; its source is absent). The checks and their order follow the
shipped `TestTriggerConfig` suite: an unknown timezone, a weekday outside
1..7, a `start_time` without `end_time` or `interval`, and an `end_time`
not after `start_time` each refuse construction with a typed error. -/
def validateTriggerConfig (raw : RawTriggerConfig) :
    Except TriggerError TriggerConfig :=
  match lookupTz raw.timezone with
  | none => .error .invalidTimezone
  | some off =>
    if weekdaysValid raw.weekdays then
      match raw.start_time with
      | none =>
        .ok { timezone := raw.timezone, tzOffset := off,
              run_time := raw.run_time, start_time := none,
              end_time := raw.end_time, interval := raw.interval,
              weekdays := raw.weekdays, dates := raw.dates }
      | some s =>
        match raw.end_time with
        | none => .error .endTimeMissing
        | some e =>
          match raw.interval with
          | none => .error .intervalMissing
          | some i =>
            if e ≤ s then .error .endNotAfterStart
            else
              .ok { timezone := raw.timezone, tzOffset := off,
                    run_time := raw.run_time, start_time := some s,
                    end_time := some e, interval := some i,
                    weekdays := raw.weekdays, dates := raw.dates }
    else .error .invalidWeekdays

/-- A validated DAILY trigger (wraps its configuration). -/
structure DailyTrigger where
  config : TriggerConfig
deriving DecidableEq, Repr

/-- A validated INTERVAL trigger (wraps its configuration). -/
structure IntervalTrigger where
  config : TriggerConfig
deriving DecidableEq, Repr

/-- Modelled from the spec: the `ImmediateTrigger` constructor checks the
trigger-type tag ("Expected trigger type immediate"). -/
def mkImmediateTrigger (tt : TriggerType) (_c : TriggerConfig) :
    Except TriggerError ImmediateTrigger :=
  if tt = .IMMEDIATE then .ok ⟨false⟩
  else .error (.wrongTriggerType .IMMEDIATE)

/-- Modelled from the spec: the `DailyTrigger` constructor checks the
trigger-type tag and requires `run_time` ("Run time must be provided"). -/
def mkDailyTrigger (tt : TriggerType) (c : TriggerConfig) :
    Except TriggerError DailyTrigger :=
  if tt = .DAILY then
    match c.run_time with
    | none => .error .runTimeMissing
    | some _ => .ok ⟨c⟩
  else .error (.wrongTriggerType .DAILY)

/-- Modelled from the spec: the `IntervalTrigger` constructor checks the
trigger-type tag and requires `start_time`, `end_time` and `interval`. -/
def mkIntervalTrigger (tt : TriggerType) (c : TriggerConfig) :
    Except TriggerError IntervalTrigger :=
  if tt = .INTERVAL then
    match c.start_time with
    | none => .error .startTimeMissing
    | some _ =>
      match c.end_time with
      | none => .error .endTimeMissing
      | some _ =>
        match c.interval with
        | none => .error .intervalMissing
        | some _ => .ok ⟨c⟩
  else .error (.wrongTriggerType .INTERVAL)

/-- Job states of §3. -/
inductive JobStatus where
  | PENDING
  | RUNNING
  | COMPLETED
  | FAILED
  | TIMEOUT
deriving DecidableEq, Repr

/-- One execution attempt of one task (§3 **Job**), restricted to the fields
the execution/retry contract speaks about. -/
structure Job where
  task_hash_id : String
  trigger_time : Int
  retry_count : Nat
  status : JobStatus
  exit_code : Option Int
deriving DecidableEq, Repr

/-- A task, restricted to the fields execution and the store need (§3
**Task**). -/
structure TaskModel where
  hash_id : String
  command : String
  max_retries : Nat
  retry_delay : Nat
deriving DecidableEq, Repr

/-- The Job row recorded for attempt number `n` of one fire event:
`COMPLETED` on exit code 0, `FAILED` otherwise (§4.3 step 5). `exitOf n` is
the exit code the command returns on attempt `n`. -/
def runAttempt (task : TaskModel) (exitOf : Nat → Int) (triggerTime : Int)
    (n : Nat) : Job :=
  { task_hash_id := task.hash_id, trigger_time := triggerTime,
    retry_count := n,
    status := if exitOf n = 0 then .COMPLETED else .FAILED,
    exit_code := some (exitOf n) }

/-- Attempts from number `n` on, retrying while the attempt is not
`COMPLETED` and `retry_count < max_retries` (§4.3 step 6); `fuel` bounds the
recursion and is set to `max_retries + 1` by `executeFire`. -/
def executeAttempts (task : TaskModel) (exitOf : Nat → Int) (triggerTime : Int) :
    Nat → Nat → List Job
  | _, 0 => []
  | n, fuel + 1 =>
    let j := runAttempt task exitOf triggerTime n
    if j.status = .COMPLETED ∨ task.max_retries ≤ n then [j]
    else j :: executeAttempts task exitOf triggerTime (n + 1) fuel

/-- Modelled from the spec: the Job Executor of §4.3 (its source,
`quickScheduler/backend/scheduler.py`, is absent), restricted to the Job
rows one fire event persists: each attempt is a distinct row sharing the
fire event's `trigger_time` and carrying the attempt's `retry_count`. -/
def executeFire (task : TaskModel) (exitOf : Nat → Int) (triggerTime : Int) :
    List Job :=
  executeAttempts task exitOf triggerTime 0 (task.max_retries + 1)

/-- Modelled from the spec: the Store of §4.6 (its source,
`quickScheduler/backend/database.py`, is absent): tasks keyed by `hash_id`,
jobs carrying their task's `hash_id`. -/
structure Store where
  tasks : List TaskModel
  jobs : List Job
deriving DecidableEq, Repr

/-- Modelled from the spec: `delete_task(hash_id) → bool` with cascade to
jobs (§4.6): when a task with the hash exists it is removed together with
exactly the jobs carrying that `task_hash_id`, returning `true`; otherwise
the store is untouched and the result is `false`. -/
def deleteTask (st : Store) (h : String) : Bool × Store :=
  if st.tasks.any (fun t => t.hash_id == h) then
    (true,
     ⟨st.tasks.filter (fun t => !(t.hash_id == h)),
      st.jobs.filter (fun j => !(j.task_hash_id == h))⟩)
  else (false, st)

/-- The runner errors of §4.2/§7 (the Python source raises `ValueError` for
the two state conflicts and `TypeError` for a bad target; the spec names
them as below). -/
inductive RunnerError where
  | AlreadyRunning
  | NotRunning
  | InvalidTarget
deriving DecidableEq, Repr

/-- What `start` may be handed: a shell command string, a key into the
process-wide callable registry, or something that is neither (the shipped
test passes the integer `123`). -/
inductive RunTarget where
  | command (s : String)
  | callableKey (k : String)
  | otherValue
deriving DecidableEq, Repr

/-- Modelled from the spec: the Subprocess Runner state of §4.2 (its source,
`quickScheduler/utils/subprocess_runner.py`, is absent): the registered
callable keys and the live execution, if any. -/
structure SubProcessRunner where
  registry : List String
  current : Option RunTarget
deriving DecidableEq, Repr

namespace SubProcessRunner

/-- A target the runner accepts: any command string, or a registered
callable key. -/
def validTarget (r : SubProcessRunner) : RunTarget → Bool
  | .command _ => true
  | .callableKey k => r.registry.contains k
  | .otherValue => false

/-- Modelled from the spec: `start(target)` (§4.2) fails with
`AlreadyRunning` while a prior start has not terminated and with
`InvalidTarget` for a target that is neither command nor registered
callable key; each failure leaves the state unchanged. -/
def start (r : SubProcessRunner) (t : RunTarget) :
    Except RunnerError Unit × SubProcessRunner :=
  match r.current with
  | some _ => (.error .AlreadyRunning, r)
  | none =>
    if r.validTarget t then (.ok (), { r with current := some t })
    else (.error .InvalidTarget, r)

/-- Modelled from the spec: `stop()` (§4.2) fails with `NotRunning` when no
execution is live, else ends the live execution. -/
def stop (r : SubProcessRunner) : Except RunnerError Unit × SubProcessRunner :=
  match r.current with
  | none => (.error .NotRunning, r)
  | some _ => (.ok (), { r with current := none })

end SubProcessRunner

-- Sanity examples replaying the shipped trigger tests (day 0 = 2023-01-01).
example : dailyGetNextRun { run_time := some 43200 } 36000 = some 43200 := by
  decide
example : dailyGetNextRun { run_time := some 43200 } 50400 = some 129600 := by
  decide
example :
    dailyGetNextRun
      { run_time := some 43200, weekdays := some [1, 2, 3, 4, 5] }
      (6 * 86400 + 36000) = some (8 * 86400 + 43200) := by
  decide
example :
    dailyGetNextRun
      { timezone := "America/New_York", tzOffset := -18000,
        run_time := some 43200 } 54000 = some 61200 := by
  decide
example :
    intervalGetNextRun
      { start_time := some 32400, end_time := some 61200,
        interval := some 3600 } 28800 = some 32400 := by decide
example :
    intervalGetNextRun
      { start_time := some 32400, end_time := some 61200,
        interval := some 3600 } 37800 = some 39600 := by decide
example :
    intervalGetNextRun
      { start_time := some 32400, end_time := some 61200,
        interval := some 3600 } 64800 = some (86400 + 32400) := by decide
example :
    intervalGetNextRun
      { start_time := some 32400, end_time := some 61200,
        interval := some 3600, weekdays := some [1, 2, 3, 4, 5] }
      (6 * 86400 + 36000) = some (8 * 86400 + 32400) := by decide
example :
    intervalGetNextRun
      { start_time := some 32400, end_time := some 61200,
        interval := some 3600, dates := some [0, 2] }
      64800 = some (2 * 86400 + 32400) := by decide
example :
    intervalGetNextRun
      { start_time := some 32400, end_time := some 61200,
        interval := some 3600, dates := some [0, 2] }
      (2 * 86400 + 64800) = none := by decide
example :
    intervalGetNextRun
      { start_time := some 32400, end_time := some 61200,
        interval := some 3600, dates := some [0, 2] }
      35970 = some 36000 := by decide
example :
    intervalGetNextRun
      { start_time := some 32400, end_time := some 61200,
        interval := some 3600, dates := some [0, 2] }
      36000 = some 39600 := by decide
example : dailyShouldRun { run_time := some 43200 } 43200 39600 = true := by
  decide
example : dailyShouldRun { run_time := some 43200 } 43200 43800 = false := by
  decide
example : dailyShouldRun { run_time := some 43200 } 46800 39600 = false := by
  decide
example :
    intervalShouldRun
      { start_time := some 32400, end_time := some 61200,
        interval := some 3600 } 36000 34200 = true := by decide
example :
    intervalShouldRun
      { start_time := some 32400, end_time := some 61200,
        interval := some 3600 } 37800 34200 = false := by decide
example :
    intervalShouldRun
      { start_time := some 32400, end_time := some 61200,
        interval := some 3600 } 28800 34200 = false := by decide

/-! ### Day arithmetic -/

/-- Lower day-boundary bound for the local day of an instant. -/
theorem localDay_lb (off t : Int) : secondsPerDay * localDay off t ≤ t + off := by
  unfold localDay secondsPerDay
  omega

/-- Upper day-boundary bound for the local day of an instant. -/
theorem localDay_ub (off t : Int) :
    t + off < secondsPerDay * (localDay off t + 1) := by
  unfold localDay secondsPerDay
  omega

/-- The second-of-day is the instant's offset past its local midnight. -/
theorem localSec_eq (off t : Int) :
    localSec off t = t + off - secondsPerDay * localDay off t := by
  unfold localSec localDay secondsPerDay
  omega

/-- The second-of-day lies in `[0, secondsPerDay)`. -/
theorem localSec_bounds (off t : Int) :
    0 ≤ localSec off t ∧ localSec off t < secondsPerDay := by
  unfold localSec secondsPerDay
  omega

/-! ### The day search -/

/-- Every element of a list is bounded by `listMaxI`. -/
theorem le_listMaxI : ∀ {xs : List Int} {x : Int}, x ∈ xs → x ≤ listMaxI xs := by
  intro xs
  induction xs with
  | nil => intro x h; cases h
  | cons y ys ih =>
    intro x h
    simp only [listMaxI]
    rcases List.mem_cons.mp h with rfl | h
    · exact le_max_left _ _
    · exact le_trans (ih h) (le_max_right _ _)

/-- What a successful day search returns: the first allowed day at or after
the start of the search. -/
theorem findAllowedDay_sound (c : TriggerConfig) :
    ∀ (fuel : Nat) (d d' : Int), findAllowedDay c d fuel = some d' →
      d ≤ d' ∧ dateAllowed c d' = true ∧
        ∀ x, d ≤ x → x < d' → dateAllowed c x = false := by
  intro fuel
  induction fuel with
  | zero => intro d d' h; simp [findAllowedDay] at h
  | succ n ih =>
    intro d d' h
    simp only [findAllowedDay] at h
    cases hb : dateAllowed c d with
    | true =>
      simp [hb] at h
      cases h
      exact ⟨le_refl _, hb, fun x h1 h2 => absurd h2 (by omega)⟩
    | false =>
      simp [hb] at h
      obtain ⟨h1, h2, h3⟩ := ih (d + 1) d' h
      refine ⟨by omega, h2, fun x hx1 hx2 => ?_⟩
      rcases eq_or_lt_of_le hx1 with rfl | hx1'
      · exact hb
      · exact h3 x (by omega) hx2

/-- A failed day search saw no allowed day within its fuel. -/
theorem findAllowedDay_none (c : TriggerConfig) :
    ∀ (fuel : Nat) (d x : Int), findAllowedDay c d fuel = none →
      d ≤ x → x < d + fuel → dateAllowed c x = false := by
  intro fuel
  induction fuel with
  | zero => intro d x _ h1 h2; omega
  | succ n ih =>
    intro d x h h1 h2
    simp only [findAllowedDay] at h
    cases hb : dateAllowed c d with
    | true => simp [hb] at h
    | false =>
      simp [hb] at h
      rcases eq_or_lt_of_le h1 with rfl | h1'
      · exact hb
      · exact ih (d + 1) x h (by omega) (by omega)

/-- With `dates` unset, whether a day passes the filters depends only on its
weekday. -/
theorem dateAllowed_of_weekday (c : TriggerConfig) (hd : c.dates = none)
    {x y : Int} (hw : isoWeekday x = isoWeekday y) :
    dateAllowed c x = dateAllowed c y := by
  unfold dateAllowed
  rw [hd, hw]

/-- The fuel `dayFuel` hands the search is exhaustive: a failed search from
`d` means no allowed day at all lies at or after `d`. -/
theorem nextDayAt_noneF (c : TriggerConfig) (d σ x : Int)
    (h : nextDayAt c d σ = none) (hx : d ≤ x)
    (hax : dateAllowed c x = true) : False := by
  unfold nextDayAt at h
  have hf : findAllowedDay c d (dayFuel c d) = none := by
    cases hfa : findAllowedDay c d (dayFuel c d) with
    | none => rfl
    | some v => rw [hfa] at h; simp at h
  cases hds : c.dates with
  | some ds =>
    have hmem : x ∈ ds := by
      unfold dateAllowed at hax
      rw [hds] at hax
      simp only [Bool.and_eq_true] at hax
      simpa using hax.2
    have hle : x ≤ listMaxI ds := le_listMaxI hmem
    have hfuel : dayFuel c d = (listMaxI ds + 1 - d).toNat := by
      unfold dayFuel
      rw [hds]
    have := findAllowedDay_none c (dayFuel c d) d x hf hx (by rw [hfuel]; omega)
    rw [this] at hax
    cases hax
  | none =>
    have hfuel : dayFuel c d = 7 := by unfold dayFuel; rw [hds]
    have hwk : isoWeekday (d + (x - d) % 7) = isoWeekday x := by
      unfold isoWeekday
      omega
    have hall : dateAllowed c (d + (x - d) % 7) = true := by
      rw [dateAllowed_of_weekday c hds hwk]
      exact hax
    have := findAllowedDay_none c (dayFuel c d) d (d + (x - d) % 7) hf
      (by omega) (by rw [hfuel]; omega)
    rw [this] at hall
    cases hall

/-- What a successful `nextDayAt` returns: the slot on the first allowed day
at or after the start of the search. -/
theorem nextDayAt_some (c : TriggerConfig) (d σ t : Int)
    (h : nextDayAt c d σ = some t) :
    ∃ d', d ≤ d' ∧ dateAllowed c d' = true ∧
      (∀ x, d ≤ x → x < d' → dateAllowed c x = false) ∧
      t = utcOf c.tzOffset d' σ := by
  unfold nextDayAt at h
  cases hfa : findAllowedDay c d (dayFuel c d) with
  | none => rw [hfa] at h; simp at h
  | some d' =>
    rw [hfa] at h
    simp only [Option.map_some'] at h
    obtain ⟨h1, h2, h3⟩ := findAllowedDay_sound c _ d d' hfa
    exact ⟨d', h1, h2, h3, (Option.some_inj.mp h).symm⟩

/-! ### DAILY: least-instant characterization -/

/-- `dailyGetNextRun` yields exactly the least valid DAILY fire instant
strictly after `now` (so the §4.1 candidate/advance/filter procedure finds
the minimum), and `none` exactly when every valid instant is ≤ `now`. -/
theorem dailyGetNextRun_least (c : TriggerConfig) (rt : Int)
    (hc : DailyOK c rt) (now t : Int) :
    (dailyGetNextRun c now = some t →
      DailyValidInstant c t ∧ now < t ∧
        ∀ t', DailyValidInstant c t' → now < t' → t ≤ t') ∧
    (dailyGetNextRun c now = none →
      ∀ t', DailyValidInstant c t' → t' ≤ now) := by
  obtain ⟨hrt, hrt0, hrtD⟩ := hc
  have hlb := localDay_lb c.tzOffset now
  have hub := localDay_ub c.tzOffset now
  simp only [secondsPerDay] at hlb hub hrtD
  simp only [dailyGetNextRun, DailyValidInstant, hrt, Option.getD_some]
  by_cases hcand : utcOf c.tzOffset (localDay c.tzOffset now) rt ≤ now
  · rw [if_pos hcand]
    constructor
    · intro h
      obtain ⟨d', hdd', hall, hmin, hteq⟩ := nextDayAt_some c _ rt t h
      refine ⟨⟨d', hall, hteq⟩, ?_, ?_⟩
      · subst hteq
        simp only [utcOf, secondsPerDay] at hcand ⊢
        omega
      · rintro t' ⟨d'', hall'', rfl⟩ hnow'
        have hd'' : localDay c.tzOffset now + 1 ≤ d'' := by
          by_contra hlt
          push_neg at hlt
          simp only [utcOf, secondsPerDay] at hcand hnow'
          omega
        have hd2 : d' ≤ d'' := by
          by_contra hlt2
          push_neg at hlt2
          have hfalse := hmin d'' hd'' hlt2
          rw [hfalse] at hall''
          cases hall''
        subst hteq
        simp only [utcOf, secondsPerDay]
        omega
    · intro h
      rintro t' ⟨d'', hall'', rfl⟩
      by_contra hgt
      push_neg at hgt
      have hd'' : localDay c.tzOffset now + 1 ≤ d'' := by
        simp only [utcOf, secondsPerDay] at hcand hgt
        omega
      exact nextDayAt_noneF c _ rt d'' h hd'' hall''
  · rw [if_neg hcand]
    push_neg at hcand
    constructor
    · intro h
      obtain ⟨d', hdd', hall, hmin, hteq⟩ := nextDayAt_some c _ rt t h
      refine ⟨⟨d', hall, hteq⟩, ?_, ?_⟩
      · subst hteq
        simp only [utcOf, secondsPerDay] at hcand ⊢
        omega
      · rintro t' ⟨d'', hall'', rfl⟩ hnow'
        have hd'' : localDay c.tzOffset now ≤ d'' := by
          by_contra hlt
          push_neg at hlt
          simp only [utcOf, secondsPerDay] at hnow'
          omega
        have hd2 : d' ≤ d'' := by
          by_contra hlt2
          push_neg at hlt2
          have hfalse := hmin d'' hd'' hlt2
          rw [hfalse] at hall''
          cases hall''
        subst hteq
        simp only [utcOf, secondsPerDay]
        omega
    · intro h
      rintro t' ⟨d'', hall'', rfl⟩
      by_contra hgt
      push_neg at hgt
      have hd'' : localDay c.tzOffset now ≤ d'' := by
        simp only [utcOf, secondsPerDay] at hgt
        omega
      exact nextDayAt_noneF c _ rt d'' h hd'' hall''

/-! ### INTERVAL: least-instant characterization -/

/-- Division facts for the interval grid: with `q = a / i`, the grid point
`s + (q + 1)·i` is the first one strictly past `s + a`. -/
theorem grid_next (i a : Int) (hi : 0 < i) (ha : 0 ≤ a) :
    0 ≤ a / i ∧ a < (a / i + 1) * i ∧ (a / i + 1) * i ≤ a + i ∧
      ∀ k, a < k * i → a / i + 1 ≤ k := by
  have h1 := Int.ediv_add_emod a i
  have h2 := Int.emod_nonneg a (by omega : i ≠ 0)
  have h3 := Int.emod_lt_of_pos a hi
  have hq0 : 0 ≤ a / i := Int.ediv_nonneg ha (le_of_lt hi)
  have he : (a / i + 1) * i = i * (a / i) + i := by ring
  refine ⟨hq0, by rw [he]; linarith, by rw [he]; linarith, ?_⟩
  intro k hk
  have hki : k * i = i * k := by ring
  rw [hki] at hk
  have h5 : i * (a / i) < i * k := by linarith
  have := lt_of_mul_lt_mul_left h5 (le_of_lt hi)
  omega

/-- The fallback branch of `intervalGetNextRun`: when no grid slot of the
current local day lies strictly after `now`, the day search from the next
day yields exactly the least valid INTERVAL instant after `now`. -/
theorem interval_fallback (c : TriggerConfig) (s e i now t : Int)
    (hs : c.start_time = some s) (he : c.end_time = some e)
    (hi : c.interval = some i)
    (hs0 : 0 ≤ s) (hse : s < e) (heD : e < secondsPerDay) (hipos : 0 < i)
    (hnone0 : ∀ k : Int, 0 ≤ k → s + k * i ≤ e →
      dateAllowed c (localDay c.tzOffset now) = true →
      utcOf c.tzOffset (localDay c.tzOffset now) (s + k * i) ≤ now) :
    (nextDayAt c (localDay c.tzOffset now + 1) s = some t →
      IntervalValidInstant c t ∧ now < t ∧
        ∀ t', IntervalValidInstant c t' → now < t' → t ≤ t') ∧
    (nextDayAt c (localDay c.tzOffset now + 1) s = none →
      ∀ t', IntervalValidInstant c t' → t' ≤ now) := by
  have hlb := localDay_lb c.tzOffset now
  have hub := localDay_ub c.tzOffset now
  simp only [secondsPerDay] at hlb hub heD
  constructor
  · intro h
    obtain ⟨d', hdd', hall, hmin, hteq⟩ := nextDayAt_some c _ s t h
    refine ⟨?_, ?_, ?_⟩
    · simp only [IntervalValidInstant, hs, he, hi, Option.getD_some]
      exact ⟨d', 0, hall, le_refl 0, by omega, by rw [hteq]; norm_num [utcOf]⟩
    · subst hteq
      simp only [utcOf, secondsPerDay]
      omega
    · intro t' ht' hnow'
      simp only [IntervalValidInstant, hs, he, hi, Option.getD_some] at ht'
      obtain ⟨d'', k, hall'', hk0, hke, rfl⟩ := ht'
      have hkint : 0 ≤ k * i := mul_nonneg hk0 (le_of_lt hipos)
      have hd'' : localDay c.tzOffset now + 1 ≤ d'' := by
        rcases lt_trichotomy d'' (localDay c.tzOffset now) with hlt | heqd | hgt
        · exfalso
          simp only [utcOf, secondsPerDay] at hnow'
          omega
        · exfalso
          have hle := hnone0 k hk0 hke (heqd ▸ hall'')
          rw [heqd] at hnow'
          omega
        · omega
      have hd2 : d' ≤ d'' := by
        by_contra hlt2
        push_neg at hlt2
        have hfalse := hmin d'' hd'' hlt2
        rw [hfalse] at hall''
        cases hall''
      subst hteq
      simp only [utcOf, secondsPerDay]
      omega
  · intro h
    intro t' ht'
    simp only [IntervalValidInstant, hs, he, hi, Option.getD_some] at ht'
    obtain ⟨d'', k, hall'', hk0, hke, rfl⟩ := ht'
    by_contra hgt
    push_neg at hgt
    have hkint : 0 ≤ k * i := mul_nonneg hk0 (le_of_lt hipos)
    rcases lt_trichotomy d'' (localDay c.tzOffset now) with hlt | heqd | hgt2
    · simp only [utcOf, secondsPerDay] at hgt
      omega
    · have hle := hnone0 k hk0 hke (heqd ▸ hall'')
      rw [heqd] at hgt
      omega
    · exact nextDayAt_noneF c _ s d'' h (by omega) hall''

/-- `intervalGetNextRun` yields exactly the least valid INTERVAL fire
instant strictly after `now`, and `none` exactly when every valid instant
is ≤ `now`. -/
theorem intervalGetNextRun_least (c : TriggerConfig) (s e i : Int)
    (hc : IntervalOK c s e i) (now t : Int) :
    (intervalGetNextRun c now = some t →
      IntervalValidInstant c t ∧ now < t ∧
        ∀ t', IntervalValidInstant c t' → now < t' → t ≤ t') ∧
    (intervalGetNextRun c now = none →
      ∀ t', IntervalValidInstant c t' → t' ≤ now) := by
  obtain ⟨hs, he, hi, hs0, hse, heD, hipos⟩ := hc
  have hlb := localDay_lb c.tzOffset now
  have hub := localDay_ub c.tzOffset now
  have hsec := localSec_eq c.tzOffset now
  have hsb := localSec_bounds c.tzOffset now
  simp only [secondsPerDay] at hlb hub hsec hsb heD
  simp only [intervalGetNextRun, hs, he, hi, Option.getD_some]
  by_cases h1 : localSec c.tzOffset now < s
  · rw [if_pos h1]
    by_cases h2 : dateAllowed c (localDay c.tzOffset now) = true
    · rw [if_pos h2]
      constructor
      · intro hsome
        have ht := Option.some_inj.mp hsome
        refine ⟨?_, ?_, ?_⟩
        · simp only [IntervalValidInstant, hs, he, hi, Option.getD_some]
          exact ⟨localDay c.tzOffset now, 0, h2, le_refl 0, by omega,
            by rw [← ht]; norm_num [utcOf]⟩
        · rw [← ht]
          simp only [utcOf, secondsPerDay]
          omega
        · intro t' ht' hnow'
          simp only [IntervalValidInstant, hs, he, hi, Option.getD_some] at ht'
          obtain ⟨d'', k, hall'', hk0, hke, rfl⟩ := ht'
          have hkint : 0 ≤ k * i := mul_nonneg hk0 (le_of_lt hipos)
          rw [← ht]
          simp only [utcOf, secondsPerDay] at hnow' ⊢
          omega
      · intro hnone
        simp at hnone
    · rw [if_neg h2]
      refine interval_fallback c s e i now t hs he hi hs0 hse (by
        simp only [secondsPerDay]; omega) hipos ?_
      intro k _ _ hall
      exact absurd hall h2
  · rw [if_neg h1]
    push_neg at h1
    by_cases h2 : e < localSec c.tzOffset now
    · rw [if_pos h2]
      refine interval_fallback c s e i now t hs he hi hs0 hse (by
        simp only [secondsPerDay]; omega) hipos ?_
      intro k hk0 hke _
      have hkint : 0 ≤ k * i := mul_nonneg hk0 (le_of_lt hipos)
      simp only [utcOf, secondsPerDay]
      omega
    · rw [if_neg h2]
      push_neg at h2
      by_cases h3 : dateAllowed c (localDay c.tzOffset now) = true
      · rw [if_pos h3]
        obtain ⟨hq0, hqlt, hqle, hqmin⟩ :=
          grid_next i (localSec c.tzOffset now - s) hipos (by omega)
        by_cases h4 : s + ((localSec c.tzOffset now - s) / i + 1) * i ≤ e
        · rw [if_pos h4]
          constructor
          · intro hsome
            have ht := Option.some_inj.mp hsome
            refine ⟨?_, ?_, ?_⟩
            · simp only [IntervalValidInstant, hs, he, hi, Option.getD_some]
              exact ⟨localDay c.tzOffset now,
                (localSec c.tzOffset now - s) / i + 1, h3, by omega, h4,
                ht.symm⟩
            · rw [← ht]
              simp only [utcOf, secondsPerDay]
              omega
            · intro t' ht' hnow'
              simp only [IntervalValidInstant, hs, he, hi,
                Option.getD_some] at ht'
              obtain ⟨d'', k, hall'', hk0, hke, rfl⟩ := ht'
              have hkint : 0 ≤ k * i := mul_nonneg hk0 (le_of_lt hipos)
              rcases lt_trichotomy d'' (localDay c.tzOffset now) with
                hlt2 | heqd | hgt2
              · exfalso
                simp only [utcOf, secondsPerDay] at hnow'
                omega
              · subst heqd
                have htod : localSec c.tzOffset now - s < k * i := by
                  simp only [utcOf, secondsPerDay] at hnow'
                  omega
                have hk1 := hqmin k htod
                have hmul :
                    ((localSec c.tzOffset now - s) / i + 1) * i ≤ k * i :=
                  mul_le_mul_of_nonneg_right hk1 (le_of_lt hipos)
                rw [← ht]
                simp only [utcOf, secondsPerDay]
                omega
              · rw [← ht]
                simp only [utcOf, secondsPerDay]
                omega
          · intro hnone
            simp at hnone
        · rw [if_neg h4]
          push_neg at h4
          refine interval_fallback c s e i now t hs he hi hs0 hse (by
            simp only [secondsPerDay]; omega) hipos ?_
          intro k hk0 hke _
          by_contra hc2
          push_neg at hc2
          have htod : localSec c.tzOffset now - s < k * i := by
            simp only [utcOf, secondsPerDay] at hc2
            omega
          have hk1 := hqmin k htod
          have hmul : ((localSec c.tzOffset now - s) / i + 1) * i ≤ k * i :=
            mul_le_mul_of_nonneg_right hk1 (le_of_lt hipos)
          omega
      · rw [if_neg h3]
        refine interval_fallback c s e i now t hs he hi hs0 hse (by
          simp only [secondsPerDay]; omega) hipos ?_
        intro k _ _ hall
        exact absurd hall h3

/-! ### Candidate tests agree with the valid-instant predicates -/

/-- `localDay` inverts `utcOf` for an in-range second of the day. -/
theorem localDay_utcOf (off d s : Int) (h0 : 0 ≤ s) (hD : s < secondsPerDay) :
    localDay off (utcOf off d s) = d := by
  unfold localDay utcOf secondsPerDay
  unfold secondsPerDay at hD
  omega

/-- `localSec` inverts `utcOf` for an in-range second of the day. -/
theorem localSec_utcOf (off d s : Int) (h0 : 0 ≤ s) (hD : s < secondsPerDay) :
    localSec off (utcOf off d s) = s := by
  unfold localSec utcOf secondsPerDay
  unfold secondsPerDay at hD
  omega

/-- The Boolean DAILY candidate test decides `DailyValidInstant`. -/
theorem dailyIsCandidate_iff (c : TriggerConfig) (rt : Int)
    (hc : DailyOK c rt) (t : Int) :
    dailyIsCandidate c t = true ↔ DailyValidInstant c t := by
  obtain ⟨hrt, h0, hD⟩ := hc
  simp only [dailyIsCandidate, DailyValidInstant, hrt, Option.getD_some]
  constructor
  · intro h
    simp only [Bool.and_eq_true, beq_iff_eq] at h
    obtain ⟨h1, h2⟩ := h
    refine ⟨localDay c.tzOffset t, h2, ?_⟩
    have hsec := localSec_eq c.tzOffset t
    simp only [secondsPerDay] at hsec
    simp only [utcOf, secondsPerDay]
    omega
  · rintro ⟨d, hall, rfl⟩
    simp only [Bool.and_eq_true, beq_iff_eq]
    rw [localSec_utcOf _ _ _ h0 hD, localDay_utcOf _ _ _ h0 hD]
    exact ⟨rfl, hall⟩

/-- The Boolean INTERVAL candidate test decides `IntervalValidInstant`. -/
theorem intervalIsCandidate_iff (c : TriggerConfig) (s e i : Int)
    (hc : IntervalOK c s e i) (t : Int) :
    intervalIsCandidate c t = true ↔ IntervalValidInstant c t := by
  obtain ⟨hs, he, hi, hs0, hse, heD, hipos⟩ := hc
  simp only [intervalIsCandidate, IntervalValidInstant, hs, he, hi,
    Option.getD_some]
  constructor
  · intro h
    simp only [Bool.and_eq_true, beq_iff_eq, decide_eq_true_eq] at h
    obtain ⟨⟨⟨h1, h2⟩, h3⟩, h4⟩ := h
    have hdiv := Int.ediv_add_emod (localSec c.tzOffset t - s) i
    rw [h3] at hdiv
    refine ⟨localDay c.tzOffset t, (localSec c.tzOffset t - s) / i,
      h4, Int.ediv_nonneg (by omega) (le_of_lt hipos), ?_, ?_⟩
    · have hcomm : (localSec c.tzOffset t - s) / i * i =
          i * ((localSec c.tzOffset t - s) / i) := by ring
      omega
    · have hsec := localSec_eq c.tzOffset t
      simp only [secondsPerDay] at hsec
      have hcomm : (localSec c.tzOffset t - s) / i * i =
          i * ((localSec c.tzOffset t - s) / i) := by ring
      simp only [utcOf, secondsPerDay]
      omega
  · rintro ⟨d, k, hall, hk0, hke, rfl⟩
    have hkint : 0 ≤ k * i := mul_nonneg hk0 (le_of_lt hipos)
    have hD : s + k * i < secondsPerDay := by
      unfold secondsPerDay
      unfold secondsPerDay at heD
      omega
    simp only [Bool.and_eq_true, beq_iff_eq, decide_eq_true_eq]
    rw [localSec_utcOf _ _ _ (by omega) hD, localDay_utcOf _ _ _ (by omega) hD]
    refine ⟨⟨⟨by omega, hke⟩, ?_⟩, hall⟩
    have : s + k * i - s = k * i := by ring
    rw [this]
    exact Int.mul_emod_left k i

/-- Results of repeated calls once an IMMEDIATE trigger has fired: always
`none`. -/
theorem immRunSeq_triggered (ns : List Int) :
    immRunSeq ⟨true⟩ ns = ns.map (fun _ => none) := by
  induction ns with
  | nil => rfl
  | cons n ns ih => simp [immRunSeq, immGetNextRun, ih]

/-- Results of repeated `should_run` calls once an IMMEDIATE trigger has
fired: always `false`. -/
theorem immShouldSeq_triggered (k : Nat) :
    immShouldSeq ⟨true⟩ k = List.replicate k false := by
  induction k with
  | zero => rfl
  | succ k ih => simp [immShouldSeq, immShouldRun, ih, List.replicate]

/-- A day passing the filters of a `dates` allowlist belongs to it. -/
theorem dateAllowed_mem_dates (c : TriggerConfig) (ds : List Int) (d : Int)
    (hds : c.dates = some ds) (h : dateAllowed c d = true) : d ∈ ds := by
  unfold dateAllowed at h
  rw [hds] at h
  simp only [Bool.and_eq_true] at h
  simpa using h.2

/-- The Boolean weekday check decides the ISO range condition. -/
theorem weekdaysValid_iff (o : Option (List Int)) :
    weekdaysValid o = true ↔ ∀ w ∈ o.getD [], 1 ≤ w ∧ w ≤ 7 := by
  cases o with
  | none => simp [weekdaysValid]
  | some ws =>
    simp [weekdaysValid, List.all_eq_true, Bool.and_eq_true, decide_eq_true_eq]

/-! ### Claim theorems -/

/-- C1 (counterexample): the shipped trigger behaviour refutes the spec's
tie-break sentence. `now = 12:00` is a valid DAILY candidate yet the trigger
returns noon of the next day, and `now = 10:00` is a valid grid point of
the dates-filtered hourly INTERVAL trigger of
`test_get_next_run_after_start_before_end` yet the trigger returns 11:00. -/
theorem tie_break_counterexample :
    dailyIsCandidate { run_time := some 43200 } 43200 = true ∧
    dailyGetNextRun { run_time := some 43200 } 43200 = some 129600 ∧
    intervalIsCandidate
      { start_time := some 32400, end_time := some 61200,
        interval := some 3600, dates := some [0, 2] } 36000 = true ∧
    intervalGetNextRun
      { start_time := some 32400, end_time := some 61200,
        interval := some 3600, dates := some [0, 2] } 36000 = some 39600 ∧
    some (43200 : Int) ≠ some (129600 : Int) ∧
    some (36000 : Int) ≠ some (39600 : Int) := by
  decide

/-- C1 (amended): when `now` coincides exactly with a candidate the trigger
does not return `now`; every instant `get_next_run` returns is strictly
after `now` (DAILY advances a day on a candidate ≤ `now`; INTERVAL takes
the first grid slot strictly after `now`). -/
theorem get_next_run_strictly_after (c : TriggerConfig)
    (rt s e i now t : Int) :
    (DailyOK c rt → dailyGetNextRun c now = some t → now < t) ∧
    (IntervalOK c s e i → intervalGetNextRun c now = some t → now < t) := by
  constructor
  · intro hc h
    exact ((dailyGetNextRun_least c rt hc now t).1 h).2.1
  · intro hc h
    exact ((intervalGetNextRun_least c s e i hc now t).1 h).2.1

/-- C1 witness: the amended claim at the counterexample's inputs. -/
theorem get_next_run_strictly_after_witness :
    (43200 : Int) < 129600 ∧ (36000 : Int) < 39600 := by
  constructor
  · exact (get_next_run_strictly_after { run_time := some 43200 }
      43200 32400 61200 3600 43200 129600).1
      ⟨rfl, by decide, by decide⟩ (by decide)
  · exact (get_next_run_strictly_after
      { start_time := some 32400, end_time := some 61200,
        interval := some 3600 }
      43200 32400 61200 3600 36000 39600).2
      ⟨rfl, rfl, rfl, by decide, by decide, by decide, by decide⟩ (by decide)

/-- C2: `dailyGetNextRun` is the spec's DAILY procedure (candidate at
today's `run_time`, advance a day when it is ≤ `now`, then advance past
filtered days, convert to UTC), and that procedure returns exactly the
least valid DAILY instant strictly after `now` (`none` exactly when the
allowlist is exhausted). -/
theorem daily_next_run_spec_procedure (c : TriggerConfig) (rt : Int)
    (hc : DailyOK c rt) (now t : Int) :
    (dailyGetNextRun c now = some t →
      DailyValidInstant c t ∧ now < t ∧
        ∀ t', DailyValidInstant c t' → now < t' → t ≤ t') ∧
    (dailyGetNextRun c now = none →
      ∀ t', DailyValidInstant c t' → t' ≤ now) :=
  dailyGetNextRun_least c rt hc now t

/-- C2 witness: the noon-UTC trigger of `test_get_next_run_same_day` called
at 10:00 fires the same day at noon. -/
theorem daily_next_run_spec_procedure_witness :
    DailyValidInstant { run_time := some 43200 } 43200 ∧
      (36000 : Int) < 43200 := by
  have h := (daily_next_run_spec_procedure { run_time := some 43200 } 43200
    ⟨rfl, by decide, by decide⟩ 36000 43200).1 (by decide)
  exact ⟨h.1, h.2.1⟩

/-- C3 (counterexample): at `now = 10:00`, itself a grid point of the
hourly 09:00-17:00 UTC trigger, the smallest grid instant ≥ `now` is
`now`; the trigger nevertheless returns 11:00. -/
theorem interval_grid_ge_counterexample :
    intervalIsCandidate
      { start_time := some 32400, end_time := some 61200,
        interval := some 3600 } 36000 = true ∧
    intervalGetNextRun
      { start_time := some 32400, end_time := some 61200,
        interval := some 3600 } 36000 = some 39600 ∧
    (39600 : Int) ≠ 36000 := by
  decide

/-- C3 (amended): with "≥ now" tightened to "strictly after now",
`intervalGetNextRun` returns exactly the least valid INTERVAL instant
strictly after `now` — the day's `start_time` when `now` is before it, the
first in-window grid slot after `now` when one fits before `end_time`, and
the next allowed day's `start_time` otherwise — in UTC, `none` exactly when
the allowlist is exhausted. -/
theorem interval_next_run_least (c : TriggerConfig) (s e i : Int)
    (hc : IntervalOK c s e i) (now t : Int) :
    (intervalGetNextRun c now = some t →
      IntervalValidInstant c t ∧ now < t ∧
        ∀ t', IntervalValidInstant c t' → now < t' → t ≤ t') ∧
    (intervalGetNextRun c now = none →
      ∀ t', IntervalValidInstant c t' → t' ≤ now) :=
  intervalGetNextRun_least c s e i hc now t

/-- C3 witness: called at 10:30 the hourly trigger fires at 11:00, a valid
grid instant after `now`. -/
theorem interval_next_run_least_witness :
    IntervalValidInstant
      { start_time := some 32400, end_time := some 61200,
        interval := some 3600 } 39600 ∧ (37800 : Int) < 39600 := by
  have h := (interval_next_run_least
    { start_time := some 32400, end_time := some 61200, interval := some 3600 }
    32400 61200 3600
    ⟨rfl, rfl, rfl, by decide, by decide, by decide, by decide⟩
    37800 39600).1 (by decide)
  exact ⟨h.1, h.2.1⟩

/-- C4: a task with `max_retries = 1` whose command fails on every attempt
produces, for one fire event, exactly two FAILED Job rows carrying
`retry_count` 0 and 1 and the same `trigger_time`. -/
theorem failing_retry_two_jobs (task : TaskModel) (exitOf : Nat → Int)
    (tt : Int) (hmr : task.max_retries = 1) (hfail : ∀ n, exitOf n ≠ 0) :
    (executeFire task exitOf tt).map Job.status =
      [JobStatus.FAILED, JobStatus.FAILED] ∧
    (executeFire task exitOf tt).map Job.retry_count = [0, 1] ∧
    (executeFire task exitOf tt).map Job.trigger_time = [tt, tt] := by
  simp [executeFire, executeAttempts, runAttempt, hmr, hfail 0, hfail 1]

/-- C4 witness: a command exiting 1 under `max_retries = 1`. -/
theorem failing_retry_two_jobs_witness :
    (executeFire ⟨"h1", "exit 1", 1, 1⟩ (fun _ => 1) 0).map Job.status =
      [JobStatus.FAILED, JobStatus.FAILED] ∧
    (executeFire ⟨"h1", "exit 1", 1, 1⟩ (fun _ => 1) 0).map Job.retry_count =
      [0, 1] ∧
    (executeFire ⟨"h1", "exit 1", 1, 1⟩ (fun _ => 1) 0).map Job.trigger_time =
      [0, 0] :=
  failing_retry_two_jobs ⟨"h1", "exit 1", 1, 1⟩ (fun _ => 1) 0 rfl
    (fun _ => one_ne_zero)

/-- C5: `should_run(candidate, now)` holds iff the candidate is a valid
fire instant of the trigger and `now` lies in the grace window one
interval-unit back from it — a day for DAILY (up to the `run_time`), the
configured interval for INTERVAL, and "first call only" for IMMEDIATE. -/
theorem should_run_characterization (c : TriggerConfig) (rt s e i : Int) :
    (DailyOK c rt → ∀ cand now,
      (dailyShouldRun c cand now = true ↔
        DailyValidInstant c cand ∧ cand - secondsPerDay ≤ now ∧ now ≤ cand)) ∧
    (IntervalOK c s e i → ∀ cand now,
      (intervalShouldRun c cand now = true ↔
        IntervalValidInstant c cand ∧ cand - i ≤ now ∧ now ≤ cand)) ∧
    (∀ st : ImmediateTrigger,
      ((immShouldRun st).1 = true ↔ st.triggered = false)) := by
  refine ⟨?_, ?_, ?_⟩
  · intro hc cand now
    unfold dailyShouldRun
    simp only [Bool.and_eq_true, decide_eq_true_eq, and_assoc]
    rw [dailyIsCandidate_iff c rt hc cand]
  · intro hc cand now
    have hi := hc.2.2.1
    unfold intervalShouldRun
    simp only [hi, Option.getD_some, Bool.and_eq_true, decide_eq_true_eq,
      and_assoc]
    rw [intervalIsCandidate_iff c s e i hc cand]
  · intro st
    obtain ⟨b⟩ := st
    cases b <;> simp [immShouldRun]

/-- C5 witness: the noon DAILY trigger accepts the noon candidate one hour
early. -/
theorem should_run_characterization_witness :
    dailyShouldRun { run_time := some 43200 } 43200 39600 = true := by
  have h := (should_run_characterization { run_time := some 43200 } 43200
    32400 61200 3600).1 ⟨rfl, by decide, by decide⟩ 43200 39600
  exact h.mpr ⟨⟨0, by decide, by decide⟩, by decide, by decide⟩

/-- C6: deleting a stored task reports success, removes it, removes exactly
the jobs carrying its hash, and leaves every other task and job in place. -/
theorem delete_task_cascades (st : Store) (T : TaskModel)
    (hT : T ∈ st.tasks) :
    (deleteTask st T.hash_id).1 = true ∧
    T ∉ (deleteTask st T.hash_id).2.tasks ∧
    (∀ t', t' ∈ (deleteTask st T.hash_id).2.tasks ↔
      t' ∈ st.tasks ∧ t'.hash_id ≠ T.hash_id) ∧
    (∀ j, j ∈ (deleteTask st T.hash_id).2.jobs ↔
      j ∈ st.jobs ∧ j.task_hash_id ≠ T.hash_id) := by
  have hany : st.tasks.any (fun t => t.hash_id == T.hash_id) = true :=
    List.any_eq_true.mpr ⟨T, hT, by simp⟩
  unfold deleteTask
  rw [if_pos hany]
  refine ⟨rfl, ?_, ?_, ?_⟩
  · simp [List.mem_filter]
  · intro t'
    simp [List.mem_filter]
  · intro j
    simp [List.mem_filter]

/-- C6 witness: deleting task "a" from a two-task store with three jobs. -/
theorem delete_task_cascades_witness :
    (deleteTask
      ⟨[⟨"a", "x", 0, 0⟩, ⟨"b", "y", 0, 0⟩],
       [⟨"a", 0, 0, .COMPLETED, some 0⟩, ⟨"a", 0, 1, .FAILED, some 1⟩,
        ⟨"b", 0, 0, .PENDING, none⟩]⟩ "a").1 = true ∧
    (deleteTask
      ⟨[⟨"a", "x", 0, 0⟩, ⟨"b", "y", 0, 0⟩],
       [⟨"a", 0, 0, .COMPLETED, some 0⟩, ⟨"a", 0, 1, .FAILED, some 1⟩,
        ⟨"b", 0, 0, .PENDING, none⟩]⟩ "a").2.jobs =
      [⟨"b", 0, 0, .PENDING, none⟩] := by
  constructor
  · exact (delete_task_cascades
      ⟨[⟨"a", "x", 0, 0⟩, ⟨"b", "y", 0, 0⟩],
       [⟨"a", 0, 0, .COMPLETED, some 0⟩, ⟨"a", 0, 1, .FAILED, some 1⟩,
        ⟨"b", 0, 0, .PENDING, none⟩]⟩ ⟨"a", "x", 0, 0⟩ (by decide)).1
  · decide

/-- C7: once `now` is past the last slot of the last date of a `dates`
allowlist, DAILY and INTERVAL `get_next_run` return `none`. -/
theorem dates_exhausted_none (c : TriggerConfig) (ds : List Int)
    (hds : c.dates = some ds) :
    (∀ rt, DailyOK c rt → ∀ now,
      utcOf c.tzOffset (listMaxI ds) rt < now →
        dailyGetNextRun c now = none) ∧
    (∀ s e i, IntervalOK c s e i → ∀ now,
      utcOf c.tzOffset (listMaxI ds) (s + (e - s) / i * i) < now →
        intervalGetNextRun c now = none) := by
  constructor
  · intro rt hc now hlate
    cases hres : dailyGetNextRun c now with
    | none => rfl
    | some t =>
      exfalso
      obtain ⟨hvalid, hnow, -⟩ := (dailyGetNextRun_least c rt hc now t).1 hres
      obtain ⟨hrt, h0, hD⟩ := hc
      simp only [DailyValidInstant, hrt, Option.getD_some] at hvalid
      obtain ⟨d', hall, rfl⟩ := hvalid
      have hmem := dateAllowed_mem_dates c ds d' hds hall
      have hle := le_listMaxI hmem
      simp only [utcOf, secondsPerDay] at hnow hlate
      omega
  · intro s e i hc now hlate
    cases hres : intervalGetNextRun c now with
    | none => rfl
    | some t =>
      exfalso
      obtain ⟨hvalid, hnow, -⟩ :=
        (intervalGetNextRun_least c s e i hc now t).1 hres
      obtain ⟨hs, he, hi, hs0, hse, heD, hipos⟩ := hc
      simp only [IntervalValidInstant, hs, he, hi, Option.getD_some] at hvalid
      obtain ⟨d', k, hall, hk0, hke, rfl⟩ := hvalid
      have hmem := dateAllowed_mem_dates c ds d' hds hall
      have hle := le_listMaxI hmem
      have hdiv := Int.ediv_add_emod (e - s) i
      have hr0 := Int.emod_nonneg (e - s) (by omega : i ≠ 0)
      have hrlt := Int.emod_lt_of_pos (e - s) hipos
      have hkQ : k ≤ (e - s) / i := by
        by_contra hgt
        push_neg at hgt
        have hmul2 := mul_le_mul_of_nonneg_right
          (by omega : (e - s) / i + 1 ≤ k) (le_of_lt hipos)
        have hcomm : ((e - s) / i + 1) * i = i * ((e - s) / i) + i := by ring
        omega
      have hmul := mul_le_mul_of_nonneg_right hkQ (le_of_lt hipos)
      simp only [utcOf, secondsPerDay] at hnow hlate
      omega

/-- C7 witness: the dates-filtered hourly trigger of
`test_get_next_run_after_end` called after the last slot of 2023-01-03. -/
theorem dates_exhausted_none_witness :
    intervalGetNextRun
      { start_time := some 32400, end_time := some 61200,
        interval := some 3600, dates := some [0, 2] } 237600 = none := by
  exact (dates_exhausted_none
    { start_time := some 32400, end_time := some 61200,
      interval := some 3600, dates := some [0, 2] } [0, 2] rfl).2
    32400 61200 3600
    ⟨rfl, rfl, rfl, by decide, by decide, by decide, by decide⟩
    237600 (by decide)

/-- C8: trigger construction validates the configuration synchronously and
produces a trigger exactly when the configuration is well formed — the
timezone is a known IANA name, every weekday lies in 1..7, a `start_time`
comes with an `end_time` after it and an `interval`, DAILY requires
`run_time`, INTERVAL requires `start_time`/`end_time`/`interval`, and the
trigger-type tag must match the variant; otherwise the typed
`TriggerError` is reported and no trigger exists. -/
theorem trigger_construction_validates :
    (∀ raw : RawTriggerConfig,
      ((validateTriggerConfig raw).isOk = true ↔
        ((lookupTz raw.timezone).isSome = true ∧
         (∀ w ∈ raw.weekdays.getD [], 1 ≤ w ∧ w ≤ 7) ∧
         (raw.start_time.isSome = true →
           raw.end_time.isSome = true ∧ raw.interval.isSome = true ∧
             raw.start_time.getD 0 < raw.end_time.getD 0)))) ∧
    (∀ (tt : TriggerType) (c : TriggerConfig),
      ((mkDailyTrigger tt c).isOk = true ↔
        tt = TriggerType.DAILY ∧ c.run_time.isSome = true)) ∧
    (∀ (tt : TriggerType) (c : TriggerConfig),
      ((mkIntervalTrigger tt c).isOk = true ↔
        tt = TriggerType.INTERVAL ∧ c.start_time.isSome = true ∧
          c.end_time.isSome = true ∧ c.interval.isSome = true)) ∧
    (∀ (tt : TriggerType) (c : TriggerConfig),
      ((mkImmediateTrigger tt c).isOk = true ↔ tt = TriggerType.IMMEDIATE)) := by
  refine ⟨?_, ?_, ?_, ?_⟩
  · intro raw
    rw [← weekdaysValid_iff]
    unfold validateTriggerConfig
    cases hl : lookupTz raw.timezone with
    | none => simp [Except.isOk, Except.toBool]
    | some off =>
      cases hw : weekdaysValid raw.weekdays with
      | false => simp [hw, Except.isOk, Except.toBool]
      | true =>
        cases hst : raw.start_time with
        | none => simp [hst, Except.isOk, Except.toBool]
        | some s =>
          cases hen : raw.end_time with
          | none => simp [hst, hen, Except.isOk, Except.toBool]
          | some e =>
            cases hiv : raw.interval with
            | none => simp [hst, hen, hiv, Except.isOk, Except.toBool]
            | some i =>
              by_cases hle : e ≤ s
              · simp [hst, hen, hiv, hle, Except.isOk, Except.toBool]
              · simp [hst, hen, hiv, hle, Except.isOk, Except.toBool]
                omega
  · intro tt c
    unfold mkDailyTrigger
    cases tt <;> cases hrt : c.run_time <;>
      simp [hrt, Except.isOk, Except.toBool]
  · intro tt c
    unfold mkIntervalTrigger
    cases tt <;> cases hst : c.start_time <;> cases hen : c.end_time <;>
      cases hiv : c.interval <;> simp [hst, hen, hiv, Except.isOk, Except.toBool]
  · intro tt c
    unfold mkImmediateTrigger
    cases tt <;> simp [Except.isOk, Except.toBool]

/-- C8 witness: a well-formed interval configuration validates; the
malformed ones of the shipped `TestTriggerConfig` suite do not. -/
theorem trigger_construction_validates_witness :
    (validateTriggerConfig
      { timezone := "UTC", start_time := some 32400,
        end_time := some 61200, interval := some 3600 }).isOk = true ∧
    (validateTriggerConfig { timezone := "Invalid/Timezone" }).isOk = false ∧
    (validateTriggerConfig
      { timezone := "UTC", weekdays := some [0, 1, 2] }).isOk = false ∧
    (validateTriggerConfig
      { timezone := "UTC", start_time := some 61200,
        end_time := some 32400, interval := some 3600 }).isOk = false := by
  refine ⟨?_, ?_, ?_, ?_⟩
  · exact (trigger_construction_validates.1 _).mpr (by decide)
  · decide
  · decide
  · decide

/-- C9: the Subprocess Runner rejects `start` while an execution is live
with `AlreadyRunning` (leaving the live execution untouched), rejects
`stop` with no live execution with `NotRunning`, and rejects a target that
is neither a command string nor a registered callable key with
`InvalidTarget`. -/
theorem runner_error_handling :
    (∀ (r : SubProcessRunner) (tgt cur : RunTarget), r.current = some cur →
      SubProcessRunner.start r tgt = (.error .AlreadyRunning, r)) ∧
    (∀ r : SubProcessRunner, r.current = none →
      SubProcessRunner.stop r = (.error .NotRunning, r)) ∧
    (∀ (r : SubProcessRunner) (tgt : RunTarget), r.current = none →
      r.validTarget tgt = false →
      SubProcessRunner.start r tgt = (.error .InvalidTarget, r)) := by
  refine ⟨?_, ?_, ?_⟩
  · intro r tgt cur h
    unfold SubProcessRunner.start
    rw [h]
  · intro r h
    unfold SubProcessRunner.stop
    rw [h]
  · intro r tgt h hv
    unfold SubProcessRunner.start
    rw [h, hv]
    rfl

/-- C9 witness: the three failures at concrete runner states. -/
theorem runner_error_handling_witness :
    SubProcessRunner.start ⟨[], some (.command "sleep 5")⟩ (.command "x") =
      (.error .AlreadyRunning, ⟨[], some (.command "sleep 5")⟩) ∧
    SubProcessRunner.stop ⟨[], none⟩ = (.error .NotRunning, ⟨[], none⟩) ∧
    SubProcessRunner.start ⟨[], none⟩ .otherValue =
      (.error .InvalidTarget, ⟨[], none⟩) := by
  refine ⟨?_, ?_, ?_⟩
  · exact runner_error_handling.1 _ _ _ rfl
  · exact runner_error_handling.2.1 _ rfl
  · exact runner_error_handling.2.2 _ _ rfl rfl

/-- C10: an IMMEDIATE trigger's first `get_next_run` call returns `now`
itself and every later call returns `none`; `should_run` is true exactly
once. -/
theorem immediate_fires_once :
    (∀ (now : Int) (ns : List Int),
      immRunSeq ⟨false⟩ (now :: ns) =
        some now :: ns.map (fun _ => none)) ∧
    (∀ k : Nat,
      immShouldSeq ⟨false⟩ (k + 1) = true :: List.replicate k false) := by
  constructor
  · intro now ns
    simp [immRunSeq, immGetNextRun, immRunSeq_triggered]
  · intro k
    simp [immShouldSeq, immShouldRun, immShouldSeq_triggered]

/-- C10 witness: three calls starting from the fresh cursor. -/
theorem immediate_fires_once_witness :
    immRunSeq ⟨false⟩ [0, 5, 9] = [some 0, none, none] ∧
    immShouldSeq ⟨false⟩ 3 = [true, false, false] := by
  constructor
  · simpa using immediate_fires_once.1 0 [5, 9]
  · simpa using immediate_fires_once.2 2
